import Mathlib

/-!
Shallow embedding of src/genres_active_window_checker.py.

Modelling conventions:
* A calendar date is a day ordinal (`Nat`): `pd.Timestamp.normalize()` values
  are day-granular, ordered, and `+ timedelta(days=1)` is `+ 1`.
* A spreadsheet cell (`Cell`) is either `absent` (a value for which `pd.isna`
  holds) or `val text parsed`, where `text` is `str(value)` and `parsed` is the
  outcome of the generic date interpretation `pd.to_datetime(value)`:
  `none` when it raises, `some (day, timeOfDay)` when it succeeds
  (`.normalize()` discards the `timeOfDay` component).  A blank string cell is
  `val s none`, since `pd.to_datetime` raises on it.
* Python `str.replace(",", ";")` with one-character arguments is per-character
  substitution, and `str.split(";")` keeps empty pieces; both are modelled at
  the character-list level (`String` in Lean is a wrapper around `List Char`).
* Python `list.sort(key=...)` is a stable ascending sort; any stable ascending
  sort by the same key computes the same list, so it is modelled by
  `List.insertionSort` (which inserts behind equal keys, hence is stable).
-/

/-- Model of Python `str.strip()`: drop leading and trailing whitespace. -/
def pyStrip (s : String) : String :=
  ⟨((s.data.dropWhile Char.isWhitespace).reverse.dropWhile Char.isWhitespace).reverse⟩

/-- Model of Python `str.upper()`: uppercase every character. -/
def pyUpper (s : String) : String := ⟨s.data.map Char.toUpper⟩

/-- A spreadsheet cell as seen by the script: `absent` models a value for which
`pd.isna` is true; `val text parsed` models any other value, carrying
`str(value)` and the result of `pd.to_datetime(value)` (day ordinal and
time-of-day component, or `none` when parsing raises). -/
inductive Cell where
  | absent : Cell
  | val (text : String) (parsed : Option (Nat × Nat)) : Cell
deriving DecidableEq, Inhabited

/-- Model of `pd.isna` on a cell. -/
def isna : Cell → Bool
  | Cell.absent => true
  | Cell.val _ _ => false

/-- Model of `clean_text` (line 81): `"" if pd.isna(val) else str(val).strip()`. -/
def clean_text : Cell → String
  | Cell.absent => ""
  | Cell.val s _ => pyStrip s

/-- Model of `parse_date` (lines 85-91): absent / the empty string / the
sentinel `"EMPTY"` (case-insensitive, after strip) give `None`; otherwise the
generic interpretation is attempted, a failure is caught and gives `None`, and
a success is normalized to day granularity. -/
def parse_date : Cell → Option Nat
  | Cell.absent => none
  | Cell.val s parsed =>
    if s = "" ∨ pyUpper (pyStrip s) = "EMPTY" then none
    else
      match parsed with
      | none => none
      | some (d, _) => some d

/-- Dates are rendered in the report as `MM-DD-YYYY` (`format_date_str`,
lines 93-98); the rendering is an injective presentation of a day-granular
date (spec section 6) and is modelled by the decimal rendering of the day
ordinal. -/
def format_date_str (d : Nat) : String := toString d

/-- `MASTER_IDX_TITLE` (line 70). -/
def MASTER_IDX_TITLE : Nat := 2

/-- `MASTER_IDX_GENRE` (line 71). -/
def MASTER_IDX_GENRE : Nat := 11

/-- `MASTER_IDX_GENRE_2` (line 72). -/
def MASTER_IDX_GENRE_2 : Nat := 12

/-- `MASTER_WINDOWS` (line 75). -/
def MASTER_WINDOWS : List (Nat × Nat) := [(15, 16), (18, 19), (21, 22), (24, 25)]

/-- One iteration of the window loop in `get_all_valid_blocks` (lines
123-128): a window pair whose offsets reach past the row is skipped, both
cells are parsed, and the pair is kept only when both parse and `e >= s`. -/
def windowRange (row : List Cell) (w : Nat × Nat) : Option (Nat × Nat) :=
  if row.length ≤ w.1 ∨ row.length ≤ w.2 then none
  else
    match parse_date (row.getD w.1 Cell.absent), parse_date (row.getD w.2 Cell.absent) with
    | some s, some e => if s ≤ e then some (s, e) else none
    | _, _ => none

/-- The `raw_ranges` list built by lines 122-128, in window order. -/
def raw_ranges (row : List Cell) : List (Nat × Nat) :=
  MASTER_WINDOWS.filterMap (windowRange row)

/-- The sweep loop of `get_all_valid_blocks` (lines 133-141): `(cs, ce)` is
the current block, the remaining sorted ranges are folded; a next range
starting at most one day after the current end extends it, otherwise the
current block is emitted and the next range starts a new block. -/
def mergeSweep (cs ce : Nat) : List (Nat × Nat) → List (Nat × Nat)
  | [] => [(cs, ce)]
  | (ns, ne) :: rest =>
    if ns ≤ ce + 1 then mergeSweep cs (max ce ne) rest
    else (cs, ce) :: mergeSweep ns ne rest

/-- Comparison used by `raw_ranges.sort(key=lambda x: x[0])` (line 131). -/
def leStart (a b : Nat × Nat) : Prop := a.1 ≤ b.1

instance : DecidableRel leStart := fun a b => inferInstanceAs (Decidable (a.1 ≤ b.1))

instance : IsTotal (Nat × Nat) leStart := ⟨fun a b => Nat.le_total a.1 b.1⟩

instance : IsTrans (Nat × Nat) leStart := ⟨fun _ _ _ h h' => Nat.le_trans h h'⟩

/-- Separation of two blocks: the second starts more than one day after the
first ends (non-overlapping and non-adjacent). -/
def wellSep (a b : Nat × Nat) : Prop := a.2 + 1 < b.1

/-- Lines 130-142 of `get_all_valid_blocks` applied to an arbitrary range
list: return `[]` on the empty list, otherwise sort ascending by start
(stably) and sweep. -/
def merge_ranges (l : List (Nat × Nat)) : List (Nat × Nat) :=
  match List.insertionSort leStart l with
  | [] => []
  | r :: rest => mergeSweep r.1 r.2 rest

/-- Model of `get_all_valid_blocks` (lines 120-142). -/
def get_all_valid_blocks (row : List Cell) : List (Nat × Nat) :=
  merge_ranges (raw_ranges row)

/-- The character substitution performed by `.replace(",", ";")`. -/
def swapComma (c : Char) : Char := if c = ',' then ';' else c

/-- Model of `s.replace(",", ";")` on a genre cell. -/
def replaceCommas (s : String) : String := ⟨s.data.map swapComma⟩

/-- Model of `s.split(";")`: split on every semicolon, keeping empty pieces. -/
def splitSemis (s : String) : List String :=
  (s.data.splitOn ';').map (fun cs => ⟨cs⟩)

/-- The per-row genre token list of line 265:
`[x.strip().upper() for x in raw_genre_str.replace(",", ";").split(";")]`.
Empty pieces are kept. -/
def tokenList (s : String) : List String :=
  (splitSemis (replaceCommas s)).map (fun x => pyUpper (pyStrip x))

/-- The per-cell tokenization of `get_user_genre` (lines 193-202): replace
commas, split on semicolons, strip, and keep only non-empty pieces (original
casing retained). -/
def cellTokensClean (s : String) : List String :=
  ((splitSemis (replaceCommas s)).map pyStrip).filter (fun p => p ≠ "")

/-- Character-level join of pieces with a separator: the model of Python
`sep.join(pieces)`, also used to describe a raw genre cell written as
delimiter-separated pieces. -/
def joinPieces (sep : List Char) : List (List Char) → List Char
  | [] => []
  | [p] => p
  | p :: ps => p ++ sep ++ joinPieces sep ps

/-- A raw genre cell consisting of `pieces` separated by the one-character
delimiter `c`. -/
def joinWith (c : Char) (pieces : List String) : String :=
  ⟨joinPieces [c] (pieces.map String.data)⟩

/-- The support-search loop of lines 296-301: scan the merged blocks in
order, stop at the first block containing the requested range. -/
def findSupport (us ue : Nat) : List (Nat × Nat) → Option (Nat × Nat)
  | [] => none
  | (vs, ve) :: rest =>
    if vs ≤ us ∧ ue ≤ ve then some (vs, ve) else findSupport us ue rest

/-- One output row (`row_data`, lines 304-330) including the hidden
`Sort_Score` helper column. -/
structure MatchRecord where
  title : Cell
  mainGenre : String
  fullMainGenreValues : String
  secondGenre : String
  requestedWindowStart : String
  requestedWindowEnd : String
  sortScore : Nat
  validMasterWindow : String
  status : String
deriving DecidableEq, Inhabited

/-- The `"[start] to [end]"` rendering of one block (lines 316 and 325). -/
def blockStr (b : Nat × Nat) : String :=
  "[" ++ format_date_str b.1 ++ "] to [" ++ format_date_str b.2 ++ "]"

/-- The `" OR ".join(block_strs)` rendering of line 326. -/
def joinOrBlocks (bs : List (Nat × Nat)) : String :=
  ⟨joinPieces [' ', 'O', 'R', ' '] ((bs.map blockStr).map String.data)⟩

/-- The body of the row loop of `run_genre_checker` (lines 257-330): genre
guards, per-row token list, sort score, title guard, block computation and
classification.  Returns `none` exactly when the loop hits a `continue`. -/
def processRow (g : String) (us ue : Nat) (row : List Cell) : Option MatchRecord :=
  if row.length ≤ MASTER_IDX_GENRE then none
  else
    let raw_genre_str := clean_text (row.getD MASTER_IDX_GENRE Cell.absent)
    if raw_genre_str = "" then none
    else
      let row_genre_list := tokenList raw_genre_str
      let search_upper := pyUpper g
      if search_upper ∈ row_genre_list then
        let sec_genre_val :=
          if MASTER_IDX_GENRE_2 < row.length then
            clean_text (row.getD MASTER_IDX_GENRE_2 Cell.absent)
          else ""
        let sort_score :=
          if row_genre_list.length = 1 then 0
          else row_genre_list.indexOf search_upper + 1
        if row.length ≤ MASTER_IDX_TITLE then none
        else
          let title := row.getD MASTER_IDX_TITLE Cell.absent
          if isna title then none
          else
            let valid_blocks := get_all_valid_blocks row
            let base : MatchRecord :=
              { title := title
                mainGenre := g
                fullMainGenreValues := raw_genre_str
                secondGenre := sec_genre_val
                requestedWindowStart := format_date_str us
                requestedWindowEnd := format_date_str ue
                sortScore := sort_score
                validMasterWindow := ""
                status := "" }
            match findSupport us ue valid_blocks with
            | some b =>
              some { base with validMasterWindow := blockStr b, status := "ACTIVE" }
            | none =>
              some { base with
                      validMasterWindow :=
                        if valid_blocks = [] then "NO VALID DATES"
                        else joinOrBlocks valid_blocks
                      status := "INACTIVE" }
      else none

/-- An emitted report row: a `MatchRecord` with the hidden sort column
dropped (lines 344 and 353). -/
structure OutRecord where
  title : Cell
  mainGenre : String
  fullMainGenreValues : String
  secondGenre : String
  requestedWindowStart : String
  requestedWindowEnd : String
  validMasterWindow : String
  status : String
deriving DecidableEq, Inhabited

/-- Dropping the `Sort_Score` column from a record. -/
def stripScore (r : MatchRecord) : OutRecord :=
  { title := r.title
    mainGenre := r.mainGenre
    fullMainGenreValues := r.fullMainGenreValues
    secondGenre := r.secondGenre
    requestedWindowStart := r.requestedWindowStart
    requestedWindowEnd := r.requestedWindowEnd
    validMasterWindow := r.validMasterWindow
    status := r.status }

/-- Comparison used by `matches.sort(key=lambda x: x["Sort_Score"])`. -/
def leScore (a b : MatchRecord) : Prop := a.sortScore ≤ b.sortScore

instance : DecidableRel leScore := fun a b => inferInstanceAs (Decidable (a.sortScore ≤ b.sortScore))

instance : IsTotal MatchRecord leScore := ⟨fun a b => Nat.le_total a.sortScore b.sortScore⟩

instance : IsTrans MatchRecord leScore := ⟨fun _ _ _ h h' => Nat.le_trans h h'⟩

/-- One sheet of the output workbook: either a table of records or the single
explanatory placeholder row written for an empty group (lines 341-356). -/
inductive Sheet where
  | table (rows : List OutRecord) : Sheet
  | placeholder (msg : String) : Sheet
deriving DecidableEq

/-- Emission of one group (lines 341-347 and 350-356): a non-empty group is
stably sorted ascending by `Sort_Score`, the sort column is dropped and the
table is written; an empty group yields the single placeholder row. -/
def emitSheet (msg : String) (group : List MatchRecord) : Sheet :=
  match group with
  | [] => Sheet.placeholder msg
  | _ => Sheet.table ((List.insertionSort leScore group).map stripScore)

/-- The row loop of `run_genre_checker` (lines 257-330): each row producing a
record appends it to `matches_active` or `matches_inactive` according to the
branch that also sets its `Status`, in row order. -/
def loopRows (g : String) (us ue : Nat) : List (List Cell) → List MatchRecord × List MatchRecord
  | [] => ([], [])
  | row :: rest =>
    let acc := loopRows g us ue rest
    match processRow g us ue row with
    | none => acc
    | some rec =>
      if rec.status == "ACTIVE" then (rec :: acc.1, acc.2) else (acc.1, rec :: acc.2)

/-- The computational core of `run_genre_checker` (lines 235-356), from the
loaded rows to the two emitted sheets. -/
def run_genre_checker (g : String) (us ue : Nat) (rows : List (List Cell)) : Sheet × Sheet :=
  let acc := loopRows g us ue rows
  (emitSheet "No active titles found" acc.1, emitSheet "No inactive titles found" acc.2)

/-- Shorthand for a run of absent cells, used to build concrete sample rows. -/
def pad (n : Nat) : List Cell := List.replicate n Cell.absent

/-- A concrete 26-cell row: title at offset 2, genre cell `"Comedy, Drama"` at
offset 11, window pairs (10,40), (41,60), one unparseable pair and one
reversed pair. -/
def wrowA : List Cell :=
  pad 2 ++ [Cell.val "Title A" none] ++ pad 8 ++ [Cell.val "Comedy, Drama" none] ++ pad 3 ++
    [Cell.val "s1" (some (10, 0)), Cell.val "e1" (some (40, 5))] ++ pad 1 ++
    [Cell.val "s2" (some (41, 0)), Cell.val "e2" (some (60, 0))] ++ pad 1 ++
    [Cell.val "bad" none, Cell.val "e3" (some (60, 0))] ++ pad 1 ++
    [Cell.val "s4" (some (90, 0)), Cell.val "e4" (some (80, 0))]

/-- The record produced for `wrowA` when querying genre `"Drama"` over the
range 20-30. -/
def wrecA : MatchRecord := (processRow "Drama" 20 30 wrowA).getD default

/-- A concrete 12-cell row (too short to reach any window pair): title at
offset 2, genre cell `"Comedy, Drama"` at offset 11. -/
def wrowShort : List Cell :=
  pad 2 ++ [Cell.val "Title B" none] ++ pad 8 ++ [Cell.val "Comedy, Drama" none]

/-- The record produced for `wrowShort` when querying genre `"Drama"` over the
range 0-1. -/
def wrecShort : MatchRecord := (processRow "Drama" 0 1 wrowShort).getD default

/-- A concrete row whose genre cell `"Drama,"` has a trailing delimiter,
exposing that empty pieces are kept in the per-row token list. -/
def wrowTrail : List Cell :=
  pad 2 ++ [Cell.val "Title C" none] ++ pad 8 ++ [Cell.val "Drama," none]

/-- A row like `wrowA` (matching genre, block (10, 60) available) whose title
cell is absent. -/
def wrowNoTitle : List Cell :=
  pad 11 ++ [Cell.val "Drama" none] ++ pad 3 ++
    [Cell.val "s1" (some (10, 0)), Cell.val "e1" (some (60, 0))] ++ pad 9

/-! ## Properties of the sweep -/

lemma mergeSweep_head (l : List (Nat × Nat)) : ∀ cs ce : Nat,
    ∃ e' t, mergeSweep cs ce l = (cs, e') :: t ∧ ce ≤ e' := by
  induction l with
  | nil => exact fun cs ce => ⟨ce, [], rfl, Nat.le_refl ce⟩
  | cons p t ih =>
    intro cs ce
    obtain ⟨ns, ne⟩ := p
    by_cases h : ns ≤ ce + 1
    · obtain ⟨e', t', ht, hle⟩ := ih cs (max ce ne)
      exact ⟨e', t', by simp [mergeSweep, h, ht],
        Nat.le_trans (Nat.le_max_left ce ne) hle⟩
    · exact ⟨ce, mergeSweep ns ne t, by simp [mergeSweep, h], Nat.le_refl ce⟩

lemma mergeSweep_starts (l : List (Nat × Nat)) : ∀ cs ce : Nat,
    ((mergeSweep cs ce l).map Prod.fst).Sublist (cs :: l.map Prod.fst) := by
  induction l with
  | nil => intro cs ce; simp [mergeSweep]
  | cons p t ih =>
    intro cs ce
    obtain ⟨ns, ne⟩ := p
    by_cases h : ns ≤ ce + 1
    · simp only [mergeSweep, if_pos h, List.map_cons]
      exact (ih cs (max ce ne)).trans
        ((List.sublist_cons_self ns (t.map Prod.fst)).cons₂ cs)
    · simp only [mergeSweep, if_neg h, List.map_cons]
      exact (ih ns ne).cons₂ cs

lemma mergeSweep_pairwise (l : List (Nat × Nat)) : ∀ cs ce : Nat,
    l.Pairwise leStart → (mergeSweep cs ce l).Pairwise wellSep := by
  induction l with
  | nil => intro cs ce _; simp [mergeSweep]
  | cons p t ih =>
    intro cs ce hp
    obtain ⟨ns, ne⟩ := p
    rw [List.pairwise_cons] at hp
    obtain ⟨hhead, htail⟩ := hp
    by_cases h : ns ≤ ce + 1
    · simpa [mergeSweep, h] using ih cs (max ce ne) htail
    · simp only [mergeSweep, if_neg h]
      refine List.pairwise_cons.mpr ⟨?_, ih ns ne htail⟩
      intro b hb
      have hmem : b.1 ∈ ns :: t.map Prod.fst :=
        (mergeSweep_starts t ns ne).subset (List.mem_map_of_mem Prod.fst hb)
      have hstart : ns ≤ b.1 := by
        rcases List.mem_cons.mp hmem with h1 | h1
        · exact Nat.le_of_eq h1.symm
        · obtain ⟨r, hr, hr2⟩ := List.mem_map.mp h1
          exact hr2 ▸ hhead r hr
      show ce + 1 < b.1
      omega

lemma mergeSweep_wf (l : List (Nat × Nat)) : ∀ cs ce : Nat,
    (∀ r ∈ l, r.1 ≤ r.2) → cs ≤ ce → ∀ b ∈ mergeSweep cs ce l, b.1 ≤ b.2 := by
  induction l with
  | nil =>
    intro cs ce _ hce b hb
    simp only [mergeSweep, List.mem_singleton] at hb
    rw [hb]
    exact hce
  | cons p t ih =>
    intro cs ce hall hce b hb
    obtain ⟨ns, ne⟩ := p
    by_cases h : ns ≤ ce + 1
    · simp only [mergeSweep, if_pos h] at hb
      exact ih cs (max ce ne) (fun r hr => hall r (List.mem_cons_of_mem _ hr))
        (Nat.le_trans hce (Nat.le_max_left ce ne)) b hb
    · simp only [mergeSweep, if_neg h, List.mem_cons] at hb
      rcases hb with hb | hb
      · rw [hb]; exact hce
      · exact ih ns ne (fun r hr => hall r (List.mem_cons_of_mem _ hr))
          (hall (ns, ne) (List.mem_cons_self _ _)) b hb

lemma mergeSweep_cover (l : List (Nat × Nat)) : ∀ cs ce d : Nat,
    l.Pairwise leStart → (∀ r ∈ l, cs ≤ r.1) →
    ((∃ b ∈ mergeSweep cs ce l, b.1 ≤ d ∧ d ≤ b.2) ↔
      (cs ≤ d ∧ d ≤ ce) ∨ ∃ r ∈ l, r.1 ≤ d ∧ d ≤ r.2) := by
  induction l with
  | nil => intro cs ce d _ _; simp [mergeSweep]
  | cons p t ih =>
    intro cs ce d hp hge
    obtain ⟨ns, ne⟩ := p
    rw [List.pairwise_cons] at hp
    obtain ⟨hhead, htail⟩ := hp
    have hcsns : cs ≤ ns := hge (ns, ne) (List.mem_cons_self _ _)
    have hexp : (∃ r ∈ (ns, ne) :: t, r.1 ≤ d ∧ d ≤ r.2) ↔
        (ns ≤ d ∧ d ≤ ne) ∨ ∃ r ∈ t, r.1 ≤ d ∧ d ≤ r.2 := by
      simp [List.mem_cons, or_and_right, exists_or]
    rw [hexp]
    by_cases h : ns ≤ ce + 1
    · rw [show mergeSweep cs ce ((ns, ne) :: t) = mergeSweep cs (max ce ne) t from by
        simp [mergeSweep, h]]
      rw [ih cs (max ce ne) d htail (fun r hr => hge r (List.mem_cons_of_mem _ hr))]
      constructor
      · rintro (⟨h1, h2⟩ | he)
        · by_cases hd : d ≤ ce
          · exact Or.inl ⟨h1, hd⟩
          · refine Or.inr (Or.inl ⟨by omega, by omega⟩)
        · exact Or.inr (Or.inr he)
      · rintro (⟨h1, h2⟩ | ⟨h1, h2⟩ | he)
        · exact Or.inl ⟨h1, by omega⟩
        · exact Or.inl ⟨by omega, by omega⟩
        · exact Or.inr he
    · rw [show mergeSweep cs ce ((ns, ne) :: t) = (cs, ce) :: mergeSweep ns ne t from by
        simp [mergeSweep, h]]
      have hih := ih ns ne d htail (fun r hr => hhead r hr)
      constructor
      · rintro ⟨b, hb, hbd⟩
        rcases List.mem_cons.mp hb with hb1 | hb1
        · exact Or.inl (by rw [hb1] at hbd; exact hbd)
        · rcases hih.mp ⟨b, hb1, hbd⟩ with h1 | h1
          · exact Or.inr (Or.inl h1)
          · exact Or.inr (Or.inr h1)
      · rintro (h1 | h1 | h1)
        · exact ⟨(cs, ce), List.mem_cons_self _ _, h1⟩
        · obtain ⟨b, hb, hbd⟩ := hih.mpr (Or.inl h1)
          exact ⟨b, List.mem_cons_of_mem _ hb, hbd⟩
        · obtain ⟨b, hb, hbd⟩ := hih.mpr (Or.inr h1)
          exact ⟨b, List.mem_cons_of_mem _ hb, hbd⟩

lemma mergeSweep_id (t : List (Nat × Nat)) : ∀ s e : Nat,
    List.Chain' wellSep ((s, e) :: t) → mergeSweep s e t = (s, e) :: t := by
  induction t with
  | nil => intro s e _; rfl
  | cons p t ih =>
    obtain ⟨ns, ne⟩ := p
    intro s e hch
    obtain ⟨hw, hch'⟩ := List.chain'_cons.mp hch
    have hns : ¬ ns ≤ e + 1 := by
      have : e + 1 < ns := hw
      omega
    simp [mergeSweep, hns, ih ns ne hch']

/-! ## Properties of `merge_ranges` -/

lemma merge_ranges_cases (l : List (Nat × Nat)) :
    (List.insertionSort leStart l = [] ∧ merge_ranges l = []) ∨
      ∃ s e rest, List.insertionSort leStart l = (s, e) :: rest ∧
        merge_ranges l = mergeSweep s e rest := by
  rcases h : List.insertionSort leStart l with _ | ⟨⟨s, e⟩, rest⟩
  · exact Or.inl ⟨rfl, by unfold merge_ranges; rw [h]⟩
  · exact Or.inr ⟨s, e, rest, rfl, by unfold merge_ranges; rw [h]⟩

lemma merge_ranges_sorted (l : List (Nat × Nat)) : (merge_ranges l).Pairwise leStart := by
  rcases merge_ranges_cases l with ⟨_, hm⟩ | ⟨s, e, rest, hs, hm⟩
  · rw [hm]; exact List.Pairwise.nil
  · rw [hm]
    have hsort : ((s, e) :: rest).Pairwise leStart := by
      rw [← hs]; exact List.sorted_insertionSort leStart l
    rw [List.pairwise_cons] at hsort
    obtain ⟨hhead, htail⟩ := hsort
    have h1 : (s :: rest.map Prod.fst).Pairwise (fun a b : Nat => a ≤ b) := by
      refine List.pairwise_cons.mpr ⟨?_, List.pairwise_map.mpr htail⟩
      intro x hx
      obtain ⟨r, hr, rfl⟩ := List.mem_map.mp hx
      exact hhead r hr
    have h2 := h1.sublist (mergeSweep_starts rest s e)
    have h3 := List.pairwise_map.mp h2
    exact h3

lemma merge_ranges_wellSep (l : List (Nat × Nat)) : (merge_ranges l).Pairwise wellSep := by
  rcases merge_ranges_cases l with ⟨_, hm⟩ | ⟨s, e, rest, hs, hm⟩
  · rw [hm]; exact List.Pairwise.nil
  · rw [hm]
    have hsort : ((s, e) :: rest).Pairwise leStart := by
      rw [← hs]; exact List.sorted_insertionSort leStart l
    rw [List.pairwise_cons] at hsort
    exact mergeSweep_pairwise rest s e hsort.2

lemma merge_ranges_wf (l : List (Nat × Nat)) (h : ∀ r ∈ l, r.1 ≤ r.2) :
    ∀ b ∈ merge_ranges l, b.1 ≤ b.2 := by
  rcases merge_ranges_cases l with ⟨_, hm⟩ | ⟨s, e, rest, hs, hm⟩
  · rw [hm]; intro b hb; exact absurd hb (List.not_mem_nil b)
  · rw [hm]
    have hperm : List.Perm ((s, e) :: rest) l := by
      rw [← hs]; exact List.perm_insertionSort leStart l
    have h' : ∀ r ∈ (s, e) :: rest, r.1 ≤ r.2 := fun r hr => h r (hperm.subset hr)
    exact mergeSweep_wf rest s e (fun r hr => h' r (List.mem_cons_of_mem _ hr))
      (h' (s, e) (List.mem_cons_self _ _))

lemma merge_ranges_cover (l : List (Nat × Nat)) (d : Nat) :
    (∃ b ∈ merge_ranges l, b.1 ≤ d ∧ d ≤ b.2) ↔ ∃ r ∈ l, r.1 ≤ d ∧ d ≤ r.2 := by
  rcases merge_ranges_cases l with ⟨hs, hm⟩ | ⟨s, e, rest, hs, hm⟩
  · have : List.Perm [] l := by rw [← hs]; exact List.perm_insertionSort leStart l
    rw [hm, this.nil_eq.symm]
  · rw [hm]
    have hperm : List.Perm ((s, e) :: rest) l := by
      rw [← hs]; exact List.perm_insertionSort leStart l
    have hsorted : ((s, e) :: rest).Pairwise leStart := by
      rw [← hs]; exact List.sorted_insertionSort leStart l
    rw [List.pairwise_cons] at hsorted
    obtain ⟨hhead, htail⟩ := hsorted
    rw [mergeSweep_cover rest s e d htail (fun r hr => hhead r hr)]
    constructor
    · rintro (h1 | ⟨r, hr, hrd⟩)
      · exact ⟨(s, e), hperm.subset (List.mem_cons_self _ _), h1⟩
      · exact ⟨r, hperm.subset (List.mem_cons_of_mem _ hr), hrd⟩
    · rintro ⟨r, hr, hrd⟩
      rcases List.mem_cons.mp (hperm.symm.subset hr) with h1 | h1
      · exact Or.inl (by rw [h1] at hrd; exact hrd)
      · exact Or.inr ⟨r, h1, hrd⟩

lemma windowRange_wf {row : List Cell} {w r : Nat × Nat} (h : windowRange row w = some r) :
    r.1 ≤ r.2 := by
  unfold windowRange at h
  split at h
  · exact absurd h (by simp)
  · split at h
    · split at h
      · obtain ⟨rfl⟩ := Option.some.inj h
        assumption
      · exact absurd h (by simp)
    · exact absurd h (by simp)

lemma raw_ranges_wf (row : List Cell) : ∀ r ∈ raw_ranges row, r.1 ≤ r.2 := by
  intro r hr
  obtain ⟨w, _, hw⟩ := List.mem_filterMap.mp hr
  exact windowRange_wf hw

/-- C1: for every row, the block list returned by `get_all_valid_blocks` is
sorted strictly ascending by start, its blocks are pairwise non-overlapping
and non-adjacent (each block starts more than one day after the previous
block ends), and the set of days covered by the blocks equals the set of days
covered by the row's valid raw ranges (window pairs where both dates parse
and start is at most end). -/
theorem merged_blocks_invariant (row : List Cell) :
    (get_all_valid_blocks row).Pairwise (fun a b => a.1 < b.1)
    ∧ (get_all_valid_blocks row).Pairwise wellSep
    ∧ ∀ d : Nat, (∃ b ∈ get_all_valid_blocks row, b.1 ≤ d ∧ d ≤ b.2) ↔
        ∃ r ∈ raw_ranges row, r.1 ≤ d ∧ d ≤ r.2 := by
  have hwf := merge_ranges_wf (raw_ranges row) (raw_ranges_wf row)
  have hsep := merge_ranges_wellSep (raw_ranges row)
  refine ⟨?_, hsep, fun d => merge_ranges_cover (raw_ranges row) d⟩
  refine hsep.imp_of_mem ?_
  intro a b ha hb hab
  have h1 := hwf a ha
  have h2 : a.2 + 1 < b.1 := hab
  omega

/-- C5: the sort-and-sweep merge is idempotent: re-merging any block list it
produces (treating each block as a raw range) returns that list unchanged. -/
theorem merge_ranges_idempotent (l : List (Nat × Nat)) :
    merge_ranges (merge_ranges l) = merge_ranges l := by
  have hsorted := merge_ranges_sorted l
  have hsep := merge_ranges_wellSep l
  cases hB : merge_ranges l with
  | nil => rfl
  | cons b tl =>
    rw [hB] at hsorted hsep
    obtain ⟨bs, be⟩ := b
    have hS : List.Sorted leStart ((bs, be) :: tl) := hsorted
    have hsort_eq : List.insertionSort leStart ((bs, be) :: tl) = (bs, be) :: tl :=
      List.Sorted.insertionSort_eq hS
    unfold merge_ranges
    rw [hsort_eq]
    exact mergeSweep_id tl bs be hsep.chain'

/-! ## Properties of the support search and of `processRow` -/

lemma findSupport_some {us ue : Nat} : ∀ {l : List (Nat × Nat)} {b : Nat × Nat},
    findSupport us ue l = some b → b ∈ l ∧ b.1 ≤ us ∧ ue ≤ b.2 := by
  intro l
  induction l with
  | nil => intro b h; exact absurd h (by simp [findSupport])
  | cons p t ih =>
    intro b h
    obtain ⟨vs, ve⟩ := p
    by_cases hc : vs ≤ us ∧ ue ≤ ve
    · simp only [findSupport, if_pos hc] at h
      obtain rfl := Option.some.inj h
      exact ⟨List.mem_cons_self _ _, hc⟩
    · simp only [findSupport, if_neg hc] at h
      obtain ⟨hm, hs⟩ := ih h
      exact ⟨List.mem_cons_of_mem _ hm, hs⟩

lemma findSupport_none_iff {us ue : Nat} : ∀ {l : List (Nat × Nat)},
    findSupport us ue l = none ↔ ∀ b ∈ l, ¬(b.1 ≤ us ∧ ue ≤ b.2) := by
  intro l
  induction l with
  | nil => simp [findSupport]
  | cons p t ih =>
    obtain ⟨vs, ve⟩ := p
    by_cases hc : vs ≤ us ∧ ue ≤ ve
    · simp [findSupport, hc]
    · rw [show findSupport us ue ((vs, ve) :: t) = findSupport us ue t from by
        simp [findSupport, hc]]
      rw [ih, List.forall_mem_cons]
      exact (and_iff_right hc).symm

lemma findSupport_first {us ue : Nat} : ∀ {l : List (Nat × Nat)} {b : Nat × Nat},
    l.Pairwise leStart → findSupport us ue l = some b →
    ∀ b' ∈ l, b'.1 ≤ us ∧ ue ≤ b'.2 → b.1 ≤ b'.1 := by
  intro l
  induction l with
  | nil => intro b _ h; exact absurd h (by simp [findSupport])
  | cons p t ih =>
    intro b hp h b' hb' hs'
    obtain ⟨vs, ve⟩ := p
    rw [List.pairwise_cons] at hp
    obtain ⟨hhead, htail⟩ := hp
    by_cases hc : vs ≤ us ∧ ue ≤ ve
    · simp only [findSupport, if_pos hc] at h
      obtain rfl := Option.some.inj h
      rcases List.mem_cons.mp hb' with h1 | h1
      · rw [h1]
      · exact hhead b' h1
    · simp only [findSupport, if_neg hc] at h
      rcases List.mem_cons.mp hb' with h1 | h1
      · rw [h1] at hs'; exact absurd hs' hc
      · exact ih htail h b' h1 hs'

lemma blocks_sorted (row : List Cell) : (get_all_valid_blocks row).Pairwise leStart :=
  merge_ranges_sorted (raw_ranges row)

lemma processRow_some_spec {g : String} {us ue : Nat} {row : List Cell} {rec : MatchRecord}
    (hq : processRow g us ue row = some rec) :
    pyUpper g ∈ tokenList (clean_text (row.getD MASTER_IDX_GENRE Cell.absent))
    ∧ rec.sortScore =
        (if (tokenList (clean_text (row.getD MASTER_IDX_GENRE Cell.absent))).length = 1 then 0
         else (tokenList (clean_text (row.getD MASTER_IDX_GENRE Cell.absent))).indexOf (pyUpper g) + 1)
    ∧ ((∃ b, findSupport us ue (get_all_valid_blocks row) = some b
          ∧ rec.status = "ACTIVE" ∧ rec.validMasterWindow = blockStr b)
       ∨ (findSupport us ue (get_all_valid_blocks row) = none ∧ rec.status = "INACTIVE"
          ∧ rec.validMasterWindow =
              (if get_all_valid_blocks row = [] then "NO VALID DATES"
               else joinOrBlocks (get_all_valid_blocks row)))) := by
  unfold processRow at hq
  split at hq
  · exact absurd hq (by simp)
  · dsimp only at hq
    split at hq
    · exact absurd hq (by simp)
    · split at hq
      · rename_i hmem
        refine ⟨hmem, ?_⟩
        split at hq
        · exact absurd hq (by simp)
        · try dsimp only at hq
          split at hq
          · exact absurd hq (by simp)
          · split at hq
            · rename_i b hfs
              obtain rfl := (Option.some.inj hq).symm
              exact ⟨rfl, Or.inl ⟨b, hfs, rfl, rfl⟩⟩
            · rename_i hfs
              obtain rfl := (Option.some.inj hq).symm
              exact ⟨rfl, Or.inr ⟨hfs, rfl, rfl⟩⟩
      · exact absurd hq (by simp)

/-- C2: a qualifying row is classified ACTIVE exactly when some merged block
contains the whole requested range (`block.start ≤ user start` and
`block.end ≥ user end`); a block that merely overlaps the range never makes
the row ACTIVE; and when ACTIVE the annotated supporting block is the first
supporting block in ascending start order (it has the least start among all
supporting blocks). -/
theorem active_iff_contained (g : String) (us ue : Nat) (row : List Cell)
    (rec : MatchRecord) (hq : processRow g us ue row = some rec) (_hr : us ≤ ue) :
    (rec.status = "ACTIVE" ↔ ∃ b ∈ get_all_valid_blocks row, b.1 ≤ us ∧ ue ≤ b.2)
    ∧ ∀ b, findSupport us ue (get_all_valid_blocks row) = some b →
        b ∈ get_all_valid_blocks row ∧ b.1 ≤ us ∧ ue ≤ b.2
        ∧ (∀ b' ∈ get_all_valid_blocks row, b'.1 ≤ us ∧ ue ≤ b'.2 → b.1 ≤ b'.1)
        ∧ rec.status = "ACTIVE" ∧ rec.validMasterWindow = blockStr b := by
  obtain ⟨-, -, hcls⟩ := processRow_some_spec hq
  constructor
  · constructor
    · intro hact
      rcases hcls with ⟨b, hfs, -, -⟩ | ⟨hnone, hst, -⟩
      · obtain ⟨hm, hs⟩ := findSupport_some hfs
        exact ⟨b, hm, hs⟩
      · have hcontr : ("INACTIVE" : String) = "ACTIVE" := by rw [← hst]; exact hact
        exact absurd hcontr (by decide)
    · rintro ⟨b', hm, hs⟩
      rcases hcls with ⟨b, -, hst, -⟩ | ⟨hnone, -, -⟩
      · exact hst
      · exact absurd hs (findSupport_none_iff.mp hnone b' hm)
  · intro b hfs
    obtain ⟨hm, hs1, hs2⟩ := findSupport_some hfs
    refine ⟨hm, hs1, hs2,
      fun b' hb' hs' => findSupport_first (blocks_sorted row) hfs b' hb' hs', ?_⟩
    rcases hcls with ⟨b0, hfs0, hst, hvw⟩ | ⟨hnone, -, -⟩
    · have hbb : b0 = b := by rw [hfs0] at hfs; exact Option.some.inj hfs
      exact ⟨hst, by rw [hvw, hbb]⟩
    · rw [hnone] at hfs
      exact absurd hfs (by simp)

/-- C2 witness: for the sample row `wrowA` (blocks merge to the single block
(10, 60)) and the requested range 20-30, the theorem applies and the row is
ACTIVE with supporting block (10, 60). -/
theorem active_iff_contained_witness :
    (wrecA.status = "ACTIVE" ↔ ∃ b ∈ get_all_valid_blocks wrowA, b.1 ≤ 20 ∧ 30 ≤ b.2)
    ∧ wrecA.status = "ACTIVE" :=
  ⟨(active_iff_contained "Drama" 20 30 wrowA wrecA (by decide) (by decide)).1, by decide⟩

/-- C4: for every qualifying row the sort score is 0 when the uppercased
query token is the row's only token, and otherwise one more than the query
token's 0-based position in the row's token list. -/
theorem sort_score_spec (g : String) (us ue : Nat) (row : List Cell) (rec : MatchRecord)
    (hq : processRow g us ue row = some rec) :
    rec.sortScore =
      (if tokenList (clean_text (row.getD MASTER_IDX_GENRE Cell.absent)) = [pyUpper g] then 0
       else (tokenList (clean_text (row.getD MASTER_IDX_GENRE Cell.absent))).indexOf (pyUpper g)
         + 1) := by
  obtain ⟨hmem, hscore, -⟩ := processRow_some_spec hq
  have hlen : (tokenList (clean_text (row.getD MASTER_IDX_GENRE Cell.absent))).length = 1 ↔
      tokenList (clean_text (row.getD MASTER_IDX_GENRE Cell.absent)) = [pyUpper g] := by
    constructor
    · intro hl
      obtain ⟨x, hx⟩ := List.length_eq_one.mp hl
      rw [hx] at hmem ⊢
      rw [List.mem_singleton.mp hmem]
    · intro h
      rw [h]
      rfl
  rw [hscore]
  simp only [hlen]

/-- C4 witness: the sample row `wrowA` with genre cell `"Comedy, Drama"`
queried for `"Drama"` satisfies the theorem's score formula, and the score
is 2. -/
theorem sort_score_witness :
    wrecA.sortScore =
      (if tokenList (clean_text (wrowA.getD MASTER_IDX_GENRE Cell.absent)) = [pyUpper "Drama"]
       then 0
       else (tokenList (clean_text (wrowA.getD MASTER_IDX_GENRE Cell.absent))).indexOf
         (pyUpper "Drama") + 1)
    ∧ wrecA.sortScore = 2 :=
  ⟨sort_score_spec "Drama" 20 30 wrowA wrecA (by decide), by decide⟩

/-- C8: a qualifying row with no valid raw range has an empty merged block
list and, for every requested range, is INACTIVE with the `"NO VALID DATES"`
marker in its Valid Master Window field. -/
theorem no_valid_dates_inactive (g : String) (us ue : Nat) (row : List Cell)
    (rec : MatchRecord) (hq : processRow g us ue row = some rec)
    (hraw : raw_ranges row = []) :
    get_all_valid_blocks row = [] ∧ rec.status = "INACTIVE"
    ∧ rec.validMasterWindow = "NO VALID DATES" := by
  have hblocks : get_all_valid_blocks row = [] := by
    unfold get_all_valid_blocks
    rw [hraw]
    rfl
  obtain ⟨-, -, hcls⟩ := processRow_some_spec hq
  rcases hcls with ⟨b, hfs, -, -⟩ | ⟨-, hst, hvw⟩
  · rw [hblocks] at hfs
    exact absurd hfs (by simp [findSupport])
  · rw [hblocks] at hvw
    exact ⟨hblocks, hst, by simpa using hvw⟩

/-- C8 witness: the 12-cell sample row `wrowShort` reaches no window pair, so
it has no raw range; its record is INACTIVE with the `"NO VALID DATES"`
marker. -/
theorem no_valid_dates_witness :
    raw_ranges wrowShort = [] ∧ wrecShort.status = "INACTIVE"
    ∧ wrecShort.validMasterWindow = "NO VALID DATES" :=
  ⟨by decide,
    (no_valid_dates_inactive "Drama" 0 1 wrowShort wrecShort (by decide) (by decide)).2.1,
    (no_valid_dates_inactive "Drama" 0 1 wrowShort wrecShort (by decide) (by decide)).2.2⟩

/-- C10: a row whose title cell is absent, or whose genre cell is absent or
blank, produces no match record at all, regardless of query genre and range
(in particular even when the genre matches and a block contains the range). -/
theorem absent_title_or_genre_no_record (g : String) (us ue : Nat) (row : List Cell)
    (h : isna (row.getD MASTER_IDX_TITLE Cell.absent) = true
         ∨ clean_text (row.getD MASTER_IDX_GENRE Cell.absent) = "") :
    processRow g us ue row = none := by
  unfold processRow
  rcases h with h | h
  · by_cases h1 : row.length ≤ MASTER_IDX_GENRE
    · rw [if_pos h1]
    · rw [if_neg h1]
      try dsimp only
      by_cases h2 : clean_text (row.getD MASTER_IDX_GENRE Cell.absent) = ""
      · rw [if_pos h2]
      · rw [if_neg h2]
        by_cases h3 : pyUpper g ∈ tokenList (clean_text (row.getD MASTER_IDX_GENRE Cell.absent))
        · rw [if_pos h3]
          try dsimp only
          by_cases h4 : row.length ≤ MASTER_IDX_TITLE
          · rw [if_pos h4]
          · rw [if_neg h4]
            try dsimp only
            rw [if_pos h]
        · rw [if_neg h3]
  · by_cases h1 : row.length ≤ MASTER_IDX_GENRE
    · rw [if_pos h1]
    · rw [if_neg h1]
      try dsimp only
      rw [if_pos h]

/-- C10 witness: `wrowNoTitle` has genre `"Drama"` and a window block
(10, 60) containing the range 10-20, yet its title cell is absent, so no
record is produced. -/
theorem absent_title_witness :
    pyUpper "Drama" ∈ tokenList (clean_text (wrowNoTitle.getD MASTER_IDX_GENRE Cell.absent))
    ∧ get_all_valid_blocks wrowNoTitle = [(10, 60)]
    ∧ processRow "Drama" 10 20 wrowNoTitle = none :=
  ⟨by decide, by decide,
    absent_title_or_genre_no_record "Drama" 10 20 wrowNoTitle (Or.inl (by decide))⟩

/-- C6: `parse_date` returns absent for a missing cell, for the empty string
and for the sentinel text `"EMPTY"` in any letter case (after stripping);
returns absent instead of raising when the generic date interpretation
fails; and on success returns the day with any time-of-day component
discarded. -/
theorem parse_date_spec :
    parse_date Cell.absent = none
    ∧ (∀ p, parse_date (Cell.val "" p) = none)
    ∧ (∀ s p, pyUpper (pyStrip s) = "EMPTY" → parse_date (Cell.val s p) = none)
    ∧ (∀ s, parse_date (Cell.val s none) = none)
    ∧ (∀ s d t, s ≠ "" → pyUpper (pyStrip s) ≠ "EMPTY" →
        parse_date (Cell.val s (some (d, t))) = some d) := by
  refine ⟨rfl, fun p => ?_, fun s p h => ?_, fun s => ?_, fun s d t h1 h2 => ?_⟩
  · simp [parse_date]
  · simp [parse_date, h]
  · by_cases hc : s = "" ∨ pyUpper (pyStrip s) = "EMPTY" <;> simp [parse_date, hc]
  · simp [parse_date, h1, h2]

/-- C6 witness: `" empty "` strips and uppercases to the sentinel and parses
to absent even with a successful generic interpretation attached; a parsed
cell keeps its day 100 and drops its time-of-day 7. -/
theorem parse_date_witness :
    pyUpper (pyStrip " empty ") = "EMPTY"
    ∧ parse_date (Cell.val " empty " (some (5, 3))) = none
    ∧ parse_date (Cell.val "2024-01-01" (some (100, 7))) = some 100 :=
  ⟨by decide, parse_date_spec.2.2.1 " empty " (some (5, 3)) (by decide),
    parse_date_spec.2.2.2.2 "2024-01-01" 100 7 (by decide) (by decide)⟩

/-! ## Out-of-range offsets behave like absent cells -/

lemma getD_absent_of_le (l : List Cell) (i : Nat) (h : l.length ≤ i) :
    l.getD i Cell.absent = Cell.absent := by
  simp [List.getD_eq_getElem?_getD, List.getElem?_eq_none h]

lemma getD_pad (row : List Cell) (k : Nat) : ∀ i : Nat,
    (row ++ List.replicate k Cell.absent).getD i Cell.absent = row.getD i Cell.absent := by
  intro i
  by_cases h : i < row.length
  · simp [List.getD_eq_getElem?_getD, List.getElem?_append_left h]
  · push_neg at h
    rw [getD_absent_of_le row i h]
    rw [List.getD_eq_getElem?_getD, List.getElem?_append_right h, List.getElem?_replicate]
    split <;> rfl

lemma windowRange_pad (row : List Cell) (k : Nat) (w : Nat × Nat) :
    windowRange (row ++ List.replicate k Cell.absent) w = windowRange row w := by
  unfold windowRange
  rw [List.length_append, List.length_replicate]
  simp only [getD_pad]
  by_cases h : row.length ≤ w.1 ∨ row.length ≤ w.2
  · rw [if_pos h]
    by_cases h2 : row.length + k ≤ w.1 ∨ row.length + k ≤ w.2
    · rw [if_pos h2]
    · rw [if_neg h2]
      rcases h with h | h
      · rw [getD_absent_of_le row w.1 h]
        cases hp : parse_date (row.getD w.2 Cell.absent) <;> rfl
      · rw [getD_absent_of_le row w.2 h]
        cases hp : parse_date (row.getD w.1 Cell.absent) <;> rfl
  · rw [if_neg h, if_neg (show ¬(row.length + k ≤ w.1 ∨ row.length + k ≤ w.2) from by omega)]

lemma blocks_pad (row : List Cell) (k : Nat) :
    get_all_valid_blocks (row ++ List.replicate k Cell.absent) = get_all_valid_blocks row := by
  unfold get_all_valid_blocks raw_ranges
  rw [show windowRange (row ++ List.replicate k Cell.absent) = windowRange row from
    funext (windowRange_pad row k)]

lemma processRow_pad (g : String) (us ue : Nat) (row : List Cell) (k : Nat) :
    processRow g us ue (row ++ List.replicate k Cell.absent) = processRow g us ue row := by
  have hlt : MASTER_IDX_TITLE < MASTER_IDX_GENRE := by decide
  unfold processRow
  rw [List.length_append, List.length_replicate]
  simp only [getD_pad]
  rw [blocks_pad]
  by_cases h1 : row.length ≤ MASTER_IDX_GENRE
  · rw [if_pos h1]
    by_cases h1' : row.length + k ≤ MASTER_IDX_GENRE
    · rw [if_pos h1']
    · rw [if_neg h1']
      try dsimp only
      rw [getD_absent_of_le row MASTER_IDX_GENRE h1]
      rw [if_pos (show clean_text Cell.absent = "" from rfl)]
  · rw [if_neg h1, if_neg (show ¬(row.length + k ≤ MASTER_IDX_GENRE) from by omega)]
    try dsimp only
    by_cases h2 : clean_text (row.getD MASTER_IDX_GENRE Cell.absent) = ""
    · rw [if_pos h2, if_pos h2]
    · rw [if_neg h2, if_neg h2]
      by_cases h3 : pyUpper g ∈ tokenList (clean_text (row.getD MASTER_IDX_GENRE Cell.absent))
      · rw [if_pos h3, if_pos h3]
        try dsimp only
        have hsec : (if MASTER_IDX_GENRE_2 < row.length + k then
              clean_text (row.getD MASTER_IDX_GENRE_2 Cell.absent) else "")
            = (if MASTER_IDX_GENRE_2 < row.length then
              clean_text (row.getD MASTER_IDX_GENRE_2 Cell.absent) else "") := by
          by_cases h4 : MASTER_IDX_GENRE_2 < row.length
          · rw [if_pos h4, if_pos (show MASTER_IDX_GENRE_2 < row.length + k from by omega)]
          · rw [if_neg h4]
            by_cases h5 : MASTER_IDX_GENRE_2 < row.length + k
            · rw [if_pos h5, getD_absent_of_le row MASTER_IDX_GENRE_2 (by omega)]
              rfl
            · rw [if_neg h5]
        rw [hsec]
        rw [if_neg (show ¬(row.length + k ≤ MASTER_IDX_TITLE) from by omega),
          if_neg (show ¬(row.length ≤ MASTER_IDX_TITLE) from by omega)]
      · rw [if_neg h3, if_neg h3]

/-- C7: a window pair whose column offsets reach past the row's length is
skipped exactly as if both cells were absent (it contributes no raw range and
causes no error), and the same treatment applies to the genre, second-genre
and title offsets: extending a row with absent cells, which moves every
out-of-range offset in range onto an absent cell, changes neither the merged
blocks nor the produced record. -/
theorem out_of_range_as_absent (g : String) (us ue : Nat) (row : List Cell) (k : Nat) :
    (∀ w ∈ MASTER_WINDOWS, row.length ≤ w.1 ∨ row.length ≤ w.2 → windowRange row w = none)
    ∧ get_all_valid_blocks (row ++ List.replicate k Cell.absent) = get_all_valid_blocks row
    ∧ processRow g us ue (row ++ List.replicate k Cell.absent) = processRow g us ue row :=
  ⟨fun w _ h => by unfold windowRange; rw [if_pos h], blocks_pad row k,
    processRow_pad g us ue row k⟩

/-- C7 witness: the short sample row skips the window pair (15, 16), and
padding it with 14 absent cells leaves its record unchanged. -/
theorem out_of_range_witness :
    windowRange wrowShort (15, 16) = none
    ∧ processRow "Drama" 0 1 (wrowShort ++ List.replicate 14 Cell.absent) =
        processRow "Drama" 0 1 wrowShort :=
  ⟨(out_of_range_as_absent "Drama" 0 1 wrowShort 14).1 (15, 16) (by decide) (by decide),
    (out_of_range_as_absent "Drama" 0 1 wrowShort 14).2.2⟩

/-! ## Genre tokenization -/

lemma map_joinPieces (f : Char → Char) (sep : List Char) :
    ∀ ls : List (List Char),
      (joinPieces sep ls).map f = joinPieces (sep.map f) (ls.map (List.map f)) := by
  intro ls
  induction ls with
  | nil => rfl
  | cons p ps ih =>
    cases ps with
    | nil => rfl
    | cons q qs =>
      simp only [joinPieces, List.map_cons, List.map_append]
      rw [ih]
      rfl

lemma map_swapComma_id {l : List Char} (h : ',' ∉ l) : l.map swapComma = l := by
  induction l with
  | nil => rfl
  | cons c t ih =>
    simp only [List.mem_cons, not_or] at h
    obtain ⟨h1, h2⟩ := h
    have hc : ¬ c = ',' := fun hh => h1 hh.symm
    simp [swapComma, hc, ih h2]

lemma datas_map_swapComma_id (pieces : List String) (h : ∀ p ∈ pieces, ',' ∉ p.data) :
    (pieces.map String.data).map (List.map swapComma) = pieces.map String.data := by
  induction pieces with
  | nil => rfl
  | cons p ps ih =>
    simp only [List.map_cons]
    rw [map_swapComma_id (h p (List.mem_cons_self _ _)),
      ih (fun q hq => h q (List.mem_cons_of_mem _ hq))]

lemma replaceCommas_joinWith (c : Char) (pieces : List String)
    (h : ∀ p ∈ pieces, ',' ∉ p.data) (hc : swapComma c = ';') :
    replaceCommas (joinWith c pieces) = joinWith ';' pieces := by
  show (⟨(joinPieces [c] (pieces.map String.data)).map swapComma⟩ : String)
      = ⟨joinPieces [';'] (pieces.map String.data)⟩
  rw [map_joinPieces swapComma [c] (pieces.map String.data),
    datas_map_swapComma_id pieces h]
  rw [show ([c].map swapComma) = [';'] from by simp [hc]]

/-- C3 counterexample: the token sequence used for matching and sort-key
computation can contain an empty token: the genre cell `"Drama,"` tokenizes
to `["DRAMA", ""]`, and for the query `"Drama"` the empty token makes the
sole-genre test fail, so the produced record's sort score is 1 instead of 0. -/
theorem tokenization_empty_token_counterexample :
    "" ∈ tokenList "Drama,"
    ∧ tokenList "Drama," = ["DRAMA", ""]
    ∧ (processRow "Drama" 0 1 wrowTrail).map MatchRecord.sortScore = some 1 :=
  ⟨by decide, by decide, by decide⟩

/-- C3 (amended): genre tokenization replaces every comma with a semicolon,
splits on semicolon and trims each piece; the catalog-scan tokenization used
to build the selectable genre set additionally discards empty pieces, so no
empty token appears there; the per-row token sequence used for matching and
sort-key computation keeps empty pieces (and uppercases), so an empty token
can appear in it; and two genre cells that differ only in using comma versus
semicolon as delimiter yield identical token sequences under both
tokenizations. -/
theorem genre_tokenization_spec :
    (∀ s : String, "" ∉ cellTokensClean s)
    ∧ (∀ pieces : List String, (∀ p ∈ pieces, ',' ∉ p.data) →
        tokenList (joinWith ',' pieces) = tokenList (joinWith ';' pieces)
        ∧ cellTokensClean (joinWith ',' pieces) = cellTokensClean (joinWith ';' pieces))
    ∧ "" ∈ tokenList "Drama," := by
  refine ⟨?_, ?_, by decide⟩
  · intro s hmem
    have h := List.mem_filter.mp hmem
    simp at h
  · intro pieces h
    have h1 : replaceCommas (joinWith ',' pieces) = replaceCommas (joinWith ';' pieces) := by
      rw [replaceCommas_joinWith ',' pieces h (by decide),
        replaceCommas_joinWith ';' pieces h (by decide)]
    exact ⟨by unfold tokenList; rw [h1], by unfold cellTokensClean; rw [h1]⟩

/-- C3 witness: the spec's example pair, `"Action, Comedy"` versus
`"Action; Comedy"` (the same pieces joined by the two delimiters), yields
identical token sequences. -/
theorem genre_tokenization_witness :
    joinWith ',' ["Action", " Comedy"] = "Action, Comedy"
    ∧ tokenList (joinWith ',' ["Action", " Comedy"]) =
        tokenList (joinWith ';' ["Action", " Comedy"]) :=
  ⟨by decide, (genre_tokenization_spec.2.1 ["Action", " Comedy"] (by decide)).1⟩

/-! ## Reporter: partition, stable sort, stripping, placeholders -/

lemma loopRows_eq (g : String) (us ue : Nat) : ∀ rows : List (List Cell),
    loopRows g us ue rows =
      ((rows.filterMap (processRow g us ue)).filter (fun r => r.status == "ACTIVE"),
       (rows.filterMap (processRow g us ue)).filter (fun r => !(r.status == "ACTIVE"))) := by
  intro rows
  induction rows with
  | nil => rfl
  | cons row rest ih =>
    cases hp : processRow g us ue row with
    | none => simp [loopRows, List.filterMap_cons, hp, ih]
    | some rec =>
      by_cases hs : rec.status == "ACTIVE"
      · simp [loopRows, List.filterMap_cons, hp, hs, ih, List.filter_cons]
      · simp [loopRows, List.filterMap_cons, hp, hs, ih, List.filter_cons]

lemma filter_orderedInsert (p : MatchRecord → Bool) (a : MatchRecord)
    (h : ∀ y, ¬ leScore a y → p a = true → p y = false) :
    ∀ l : List MatchRecord,
      (List.orderedInsert leScore a l).filter p =
        if p a then a :: l.filter p else l.filter p := by
  intro l
  induction l with
  | nil => by_cases hp : p a <;> simp [List.orderedInsert, hp]
  | cons y ys ih =>
    by_cases hr : leScore a y
    · by_cases hp : p a <;>
        simp [List.orderedInsert, if_pos hr, List.filter_cons, hp]
    · by_cases hp : p a
      · have hpy : p y = false := h y hr hp
        simp [List.orderedInsert, if_neg hr, List.filter_cons, hpy, ih, hp]
      · by_cases hpy : p y <;>
          simp [List.orderedInsert, if_neg hr, List.filter_cons, hpy, ih, hp]

lemma filter_insertionSort (p : MatchRecord → Bool)
    (h : ∀ a y, ¬ leScore a y → p a = true → p y = false) :
    ∀ l : List MatchRecord, (List.insertionSort leScore l).filter p = l.filter p := by
  intro l
  induction l with
  | nil => rfl
  | cons a t ih =>
    show (List.orderedInsert leScore a (List.insertionSort leScore t)).filter p = _
    rw [filter_orderedInsert p a (h a) (List.insertionSort leScore t), ih]
    by_cases hp : p a <;> simp [List.filter_cons, hp]

lemma insertionSort_score_stable (group : List MatchRecord) (k : Nat) :
    (List.insertionSort leScore group).filter (fun r => r.sortScore == k) =
      group.filter (fun r => r.sortScore == k) := by
  refine filter_insertionSort (fun r => r.sortScore == k) ?_ group
  intro a y hr hpa
  have h1 : a.sortScore = k := by simpa using hpa
  have h2 : y.sortScore < a.sortScore := Nat.lt_of_not_le hr
  simp only [beq_eq_false_iff_ne, ne_eq]
  omega

/-- C9: the reporter partitions the produced match records into the ACTIVE
and the INACTIVE group by Status in row order, sorts each group ascending by
sort score stably (records with equal scores keep their relative row order),
strips the sort-score field from every emitted record, and emits the single
explanatory placeholder row instead of a table exactly when a group is
empty. -/
theorem reporter_spec (g : String) (us ue : Nat) (rows : List (List Cell)) :
    loopRows g us ue rows =
      ((rows.filterMap (processRow g us ue)).filter (fun r => r.status == "ACTIVE"),
       (rows.filterMap (processRow g us ue)).filter (fun r => !(r.status == "ACTIVE")))
    ∧ run_genre_checker g us ue rows =
        (emitSheet "No active titles found"
          ((rows.filterMap (processRow g us ue)).filter (fun r => r.status == "ACTIVE")),
         emitSheet "No inactive titles found"
          ((rows.filterMap (processRow g us ue)).filter (fun r => !(r.status == "ACTIVE"))))
    ∧ (∀ msg : String, emitSheet msg [] = Sheet.placeholder msg)
    ∧ (∀ (msg : String) (group : List MatchRecord), group ≠ [] →
        emitSheet msg group =
          Sheet.table ((List.insertionSort leScore group).map stripScore)
        ∧ (List.insertionSort leScore group).Pairwise
            (fun a b => a.sortScore ≤ b.sortScore)
        ∧ ∀ k : Nat, (List.insertionSort leScore group).filter (fun r => r.sortScore == k) =
            group.filter (fun r => r.sortScore == k)) := by
  have hloop := loopRows_eq g us ue rows
  refine ⟨hloop, ?_, fun msg => rfl, fun msg group hne => ?_⟩
  · unfold run_genre_checker
    rw [hloop]
  · refine ⟨?_, ?_, fun k => insertionSort_score_stable group k⟩
    · cases group with
      | nil => exact absurd rfl hne
      | cons a t => rfl
    · have hs := List.sorted_insertionSort leScore group
      exact hs

/-- C9 witness: on a one-row catalog whose row is ACTIVE, the loop equals the
status partition of the produced records, and the empty INACTIVE group emits
the placeholder sheet. -/
theorem reporter_witness :
    loopRows "Drama" 20 30 [wrowA] =
      (([wrowA].filterMap (processRow "Drama" 20 30)).filter (fun r => r.status == "ACTIVE"),
       ([wrowA].filterMap (processRow "Drama" 20 30)).filter (fun r => !(r.status == "ACTIVE")))
    ∧ emitSheet "No inactive titles found" ([] : List MatchRecord) =
        Sheet.placeholder "No inactive titles found" :=
  ⟨(reporter_spec "Drama" 20 30 [wrowA]).1,
    (reporter_spec "Drama" 20 30 [wrowA]).2.2.1 "No inactive titles found"⟩
